import Mathlib

/-!
Shallow embedding of the redigo in-memory key-value store
(src/internal/redigo: command.go, index.go, expiration.go, aof.go,
snapshot.go, types/) together with theorems checking the natural-language
specification against it.

Modelling conventions:
* Go maps (`map[string]V`) are association lists `List (String × V)` with
  unique keys; `alookup`, `ainsert`, `aerase` model read, assignment and
  `delete`.
* Go `int64` / `int` timestamps and TTLs are `Int`.
* Go `float64` is modelled as `ℚ`; the only float operations the code
  performs are equality, the conversion `int(f)` (truncation toward zero,
  modelled by `ratTrunc`) and the conversion `float64(i)` (the cast
  `Int → ℚ`), all of which are exact on rationals.
* JSON payloads (`any` values decoded by `encoding/json`) are the `Wire`
  type: every JSON number decodes to Go `float64`, hence `Wire.wnum : ℚ`.
* Mutex operations are no-ops in this sequential embedding.
-/

namespace Redigo

/-- Association-list lookup, modelling Go `v, ok := m[k]`. -/
def alookup {α : Type} : List (String × α) → String → Option α
  | [], _ => none
  | (k', v) :: t, k => if k' = k then some v else alookup t k

/-- Association-list insert/replace, modelling Go `m[k] = v`. -/
def ainsert {α : Type} : List (String × α) → String → α → List (String × α)
  | [], k, v => [(k, v)]
  | (k', v') :: t, k, v => if k' = k then (k, v) :: t else (k', v') :: ainsert t k v

/-- Association-list key removal, modelling Go `delete(m, k)`. -/
def aerase {α : Type} : List (String × α) → String → List (String × α)
  | [], _ => []
  | (a, b) :: t, k => if a = k then aerase t k else (a, b) :: aerase t k

/-- The four storable value variants of `types.RedigoStorableValues`
(string, int, bool, float64), plus `vother` standing for any Go value
outside the accepted set (command.go `Set` receives `any`). -/
inductive Value : Type
  | vstr (s : String)
  | vint (n : Int)
  | vbool (b : Bool)
  | vfloat (q : ℚ)
  | vother
deriving DecidableEq, Repr

/-- Truncation toward zero, modelling Go's `int(f)` conversion on
`float64`. -/
def ratTrunc (q : ℚ) : Int := q.num.tdiv q.den

/-- JSON-decoded payloads (`encoding/json` into Go `any`): strings,
booleans, numbers (always `float64` in Go, hence `ℚ` here), and the empty
payload of DELETE records. -/
inductive Wire : Type
  | wstr (s : String)
  | wbool (b : Bool)
  | wnum (q : ℚ)
  | wempty
deriving DecidableEq, Repr

/-- `types.CommandValue`: a type tag plus the payload. -/
structure CommandValue : Type where
  type : String
  value : Wire
deriving DecidableEq, Repr

/-- `types.CommandName`. -/
inductive CommandName : Type
  | SET
  | DELETE
  | EXPIRE
deriving DecidableEq, Repr

/-- `types.Command`: one AOF record. `ttl` models the `*int64` pointer
(`none` = nil, as in DELETE/EXPIRE records). -/
structure Command : Type where
  name : CommandName
  key : String
  value : CommandValue
  ttl : Option Int
  timestamp : Int
deriving DecidableEq, Repr

/-- `types.IndexEntry` (index.go generation: `Keys []string`, a slice,
not a set). -/
structure IndexEntry : Type where
  keys : List String
deriving DecidableEq, Repr

/-- One reverse index: Go `map[string]*IndexEntry`. -/
abbrev Index : Type := List (String × IndexEntry)

/-- The in-memory part of `RedigoDB` (index.go): the store, the
expiration map, the three reverse indexes and the AOF command buffer.
File handles and mutexes are omitted from the sequential embedding. -/
structure DB : Type where
  store : List (String × Value)
  expirationKeys : List (String × Int)
  valueIndex : Index
  prefixIndex : Index
  suffixIndex : Index
  aofBuffer : List Command
deriving DecidableEq, Repr

/-- The freshly initialized database of `InitializeRedigo`. -/
def emptyDB : DB :=
  { store := [], expirationKeys := [], valueIndex := [], prefixIndex := [],
    suffixIndex := [], aofBuffer := [] }

/-- index.go `valueToString`: strings as-is, booleans as `true`/`false`,
ints in decimal; every other variant (including `float64`) falls into the
`default` branch returning the empty string. -/
def valueToString : Value → String
  | .vstr s => s
  | .vbool b => if b then "true" else "false"
  | .vint n => toString n
  | .vfloat _ => ""
  | .vother => ""

/-- The prefixes `key[:i]` for `i = 1 .. len(key)` enumerated by
index.go's prefix loop. -/
def prefixesOf (key : String) : List String :=
  (List.range key.length).map (fun i => key.take (i + 1))

/-- The suffixes `key[i:]` for `i = 0 .. len(key)-1` enumerated by
index.go's suffix loop. -/
def suffixesOf (key : String) : List String :=
  (List.range key.length).map (fun i => key.drop i)

/-- Insert `key` into one reverse index under index key `ikey`
(index.go: append to the existing slice, else create a one-element
slice). -/
def indexAdd (idx : Index) (ikey key : String) : Index :=
  match alookup idx ikey with
  | some e => ainsert idx ikey ⟨e.keys ++ [key]⟩
  | none => ainsert idx ikey ⟨[key]⟩

/-- index.go `removeKeyFromSlice`: removes only the first occurrence. -/
def removeKeyFromSlice : List String → String → List String
  | [], _ => []
  | k :: t, key => if k = key then t else k :: removeKeyFromSlice t key

/-- Remove `key` from one reverse index under `ikey`; an entry whose
slice became empty is dropped (index.go `removeFromIndex`, per entry). -/
def indexRemove (idx : Index) (ikey key : String) : Index :=
  match alookup idx ikey with
  | some e =>
    let ks := removeKeyFromSlice e.keys key
    if ks.length = 0 then aerase idx ikey else ainsert idx ikey ⟨ks⟩
  | none => idx

/-- index.go `addToIndex`: value index under the stringified value,
prefix index under every prefix, suffix index under every suffix. -/
def addToIndex (db : DB) (key : String) (value : Value) : DB :=
  let vs := valueToString value
  { db with
    valueIndex := indexAdd db.valueIndex vs key
    prefixIndex := (prefixesOf key).foldl (fun ix p => indexAdd ix p key) db.prefixIndex
    suffixIndex := (suffixesOf key).foldl (fun ix s => indexAdd ix s key) db.suffixIndex }

/-- index.go `removeFromIndex`. -/
def removeFromIndex (db : DB) (key : String) (value : Value) : DB :=
  let vs := valueToString value
  { db with
    valueIndex := indexRemove db.valueIndex vs key
    prefixIndex := (prefixesOf key).foldl (fun ix p => indexRemove ix p key) db.prefixIndex
    suffixIndex := (suffixesOf key).foldl (fun ix s => indexRemove ix s key) db.suffixIndex }

/-- aof.go `unsafeRemoveKey`: drop the key from the store and from the
expiration map (and from nothing else). -/
def unsafeRemoveKey (db : DB) (key : String) : DB :=
  { db with store := aerase db.store key, expirationKeys := aerase db.expirationKeys key }

/-- Modelled from the spec: the bodies of `RedigoDB.UnsafeRemoveKey` and
`RedigoDB.SafeRemoveKey` are not among the provided sources (only their
call sites are). Spec section 4.2 specifies the store's `remove`
primitive: it "drops both maps together", i.e. it removes the key from
the store and from the expiration map and touches nothing else — exactly
the behaviour of aof.go's in-source `unsafeRemoveKey`. In this sequential
embedding the safe and unsafe variants (which differ only in locking)
therefore coincide. -/
def SafeRemoveKey (db : DB) (key : String) : DB := unsafeRemoveKey db key

/-- Error kinds of internal/redigo/errors. -/
inductive Err : Type
  | keyNotFound
  | keyExpired
  | keyAlreadyExists
  | unsupportedValueType
deriving DecidableEq, Repr

/-- The `types.CommandValue` that command.go `Set` builds for each
accepted value variant (`none` for the `default` branch). After the
JSON round trip through the AOF file, Go `int` and `float64` payloads
are both JSON numbers, so they are recorded as `Wire.wnum`. -/
def commandValueOf : Value → Option CommandValue
  | .vstr s => some ⟨"string", .wstr s⟩
  | .vint n => some ⟨"int", .wnum (n : ℚ)⟩
  | .vbool b => some ⟨"bool", .wbool b⟩
  | .vfloat q => some ⟨"float64", .wnum q⟩
  | .vother => none

/-- The zero `types.CommandValue{}` used by DELETE records. -/
def emptyCommandValue : CommandValue := ⟨"", .wempty⟩

/-- command.go `Set` (first version, lines 14-68). Note the source
order: the store insert, the index insert and the TTL handling all
happen before the value-type switch, so an unsupported value type
returns an error with those mutations already applied and no command
appended. -/
def set (now : Int) (key : String) (value : Value) (ttl : Int) (db : DB) :
    DB × Option Err :=
  if (alookup db.store key).isSome then
    (db, some .keyAlreadyExists)
  else
    let db₁ := { db with store := ainsert db.store key value }
    let db₂ := addToIndex db₁ key value
    let db₃ :=
      if ttl > 0 then
        { db₂ with expirationKeys := ainsert db₂.expirationKeys key (now + ttl) }
      else
        { db₂ with expirationKeys := aerase db₂.expirationKeys key }
    match commandValueOf value with
    | none => (db₃, some .unsupportedValueType)
    | some cv =>
      let cmd : Command :=
        { name := .SET, key := key, value := cv, ttl := some ttl, timestamp := now }
      ({ db₃ with aofBuffer := db₃.aofBuffer ++ [cmd] }, none)

/-- command.go `Get`: on-read expiration (deadline exists and
`now > deadline`) evicts via `UnsafeRemoveKey` and appends a DELETE
record; otherwise a plain store lookup. -/
def get (now : Int) (key : String) (db : DB) : DB × (Option Value × Option Err) :=
  match alookup db.expirationKeys key with
  | some expireTime =>
    if now > expireTime then
      let db₁ := unsafeRemoveKey db key
      let cmd : Command :=
        { name := .DELETE, key := key, value := emptyCommandValue,
          ttl := none, timestamp := now }
      ({ db₁ with aofBuffer := db₁.aofBuffer ++ [cmd] }, (none, some .keyExpired))
    else
      match alookup db.store key with
      | some v => (db, (some v, none))
      | none => (db, (none, some .keyNotFound))
  | none =>
    match alookup db.store key with
    | some v => (db, (some v, none))
    | none => (db, (none, some .keyNotFound))

/-- command.go `Delete`: remove from the reverse indexes, then from both
maps, then append a DELETE record; `false` if the key is absent. -/
def deleteKey (now : Int) (key : String) (db : DB) : DB × Bool :=
  match alookup db.store key with
  | none => (db, false)
  | some value =>
    let db₁ := removeFromIndex db key value
    let db₂ := unsafeRemoveKey db₁ key
    let cmd : Command :=
      { name := .DELETE, key := key, value := emptyCommandValue,
        ttl := none, timestamp := now }
    ({ db₂ with aofBuffer := db₂.aofBuffer ++ [cmd] }, true)

/-- command.go `SetExpiry`: `seconds > 0` sets the deadline,
`seconds == 0` clears it, `seconds < 0` returns `false` before the
EXPIRE record is appended. The EXPIRE record carries
`float64(seconds)`. -/
def setExpiry (now : Int) (key : String) (seconds : Int) (db : DB) : DB × Bool :=
  match alookup db.store key with
  | none => (db, false)
  | some _ =>
    let db₁ :=
      if seconds > 0 then
        { db with expirationKeys := ainsert db.expirationKeys key (now + seconds) }
      else if seconds = 0 then
        { db with expirationKeys := aerase db.expirationKeys key }
      else db
    if seconds < 0 then (db₁, false)
    else
      let cmd : Command :=
        { name := .EXPIRE, key := key,
          value := ⟨"float64", .wnum (seconds : ℚ)⟩,
          ttl := none, timestamp := now }
      ({ db₁ with aofBuffer := db₁.aofBuffer ++ [cmd] }, true)

/-- expiration.go `GetTtl` (lines 133-160): absent → `(-1, false)`;
no deadline → `(0, true)`; expired (`remaining ≤ 0`) → delete the key
from the store and the expiration map (nothing else, and no AOF record)
and return `(-1, false)`; otherwise `(remaining, true)`. -/
def getTtl (now : Int) (key : String) (db : DB) : DB × (Int × Bool) :=
  match alookup db.store key with
  | none => (db, (-1, false))
  | some _ =>
    match alookup db.expirationKeys key with
    | none => (db, (0, true))
    | some expirationTime =>
      let remainingTime := expirationTime - now
      if remainingTime ≤ 0 then
        ({ db with store := aerase db.store key,
                   expirationKeys := aerase db.expirationKeys key },
         (-1, false))
      else (db, (remainingTime, true))

/-- The per-key eviction of the sweeper loop (expiration.go lines
222-225): delete the key from the store and from the expiration map. -/
def evictBothMaps (d : DB) (k : String) : DB :=
  { d with store := aerase d.store k, expirationKeys := aerase d.expirationKeys k }

/-- One tick of expiration.go `StartDataExpirationListener`: collect the
keys whose deadline is strictly past, delete each from the store and the
expiration map, then append one DELETE record per evicted key. -/
def sweep (now : Int) (db : DB) : DB :=
  let expiredKeys := (db.expirationKeys.filter (fun p => now > p.2)).map Prod.fst
  let db₁ := expiredKeys.foldl evictBothMaps db
  let cmds := expiredKeys.map
    (fun k => ({ name := .DELETE, key := k, value := emptyCommandValue,
                 ttl := none, timestamp := now } : Command))
  { db₁ with aofBuffer := db₁.aofBuffer ++ cmds }

/-- command.go `SearchByValue` on the slice-backed indexes of index.go:
a copy of the entry's key slice, or the empty list. -/
def searchValueIdx (db : DB) (v : String) : List String :=
  match alookup db.valueIndex v with
  | some e => e.keys
  | none => []

/-- index.go `SearchByKeyPrefix` (slice-backed): a copy of the entry's
key slice, or the empty list. -/
def searchPrefixIdx (db : DB) (p : String) : List String :=
  match alookup db.prefixIndex p with
  | some e => e.keys
  | none => []

/-- index.go `SearchByKeySuffix` (slice-backed). -/
def searchSuffixIdx (db : DB) (s : String) : List String :=
  match alookup db.suffixIndex s with
  | some e => e.keys
  | none => []

/-- aof.go / command.go `DeserializeCommandValue` applied to a
JSON-decoded payload: `"string"`/`"bool"` expect their own kind, `"int"`
accepts a JSON number (Go `float64`, converted by `int(v)`) or a decimal
string (`strconv.Atoi`), `"float64"` expects a number; everything else
is an error (`none`). -/
def DeserializeCommandValue (cv : CommandValue) : Option Value :=
  match cv.type, cv.value with
  | "string", .wstr s => some (.vstr s)
  | "bool", .wbool b => some (.vbool b)
  | "int", .wnum q => some (.vint (ratTrunc q))
  | "int", .wstr s => (s.toInt?).map .vint
  | "float64", .wnum q => some (.vfloat q)
  | _, _ => none

/-- aof.go `handleTtlRestoration`: nothing unless the record carries a
positive ttl; then the absolute deadline is `timestamp + ttl`, restored
if still in the future and otherwise the key is removed from both
maps. -/
def handleTtlRestoration (now : Int) (cmd : Command) (db : DB) : DB :=
  match cmd.ttl with
  | none => db
  | some t =>
    if t ≤ 0 then db
    else
      let expirationTime := cmd.timestamp + t
      if expirationTime > now then
        { db with expirationKeys := ainsert db.expirationKeys cmd.key expirationTime }
      else unsafeRemoveKey db cmd.key

/-- aof.go `replaySetCommand`: deserialize (a failure is reported and
the line is skipped), store the value, restore the ttl. The reverse
indexes are not touched. -/
def replaySetCommand (now : Int) (cmd : Command) (db : DB) : DB :=
  match DeserializeCommandValue cmd.value with
  | none => db
  | some value =>
    handleTtlRestoration now cmd { db with store := ainsert db.store cmd.key value }

/-- aof.go `replayDeleteCommand`: `SafeRemoveKey`. -/
def replayDeleteCommand (cmd : Command) (db : DB) : DB :=
  SafeRemoveKey db cmd.key

/-- aof.go `parseExpirationSeconds`: a JSON number is converted with
`int64(v)`; a string with `strconv.ParseInt`. -/
def parseExpirationSeconds (cv : CommandValue) : Option Int :=
  match cv.value with
  | .wnum q => some (ratTrunc q)
  | .wstr s => s.toInt?
  | _ => none

/-- aof.go / expiration.go `applyExpiration`: the remaining time is
`seconds - (now - timestamp)`; positive remaining re-arms the deadline
at `now + remaining`, otherwise the key is removed from both maps. -/
def applyExpiration (now : Int) (key : String) (commandTimestamp seconds : Int)
    (db : DB) : DB :=
  let elapsedTime := now - commandTimestamp
  let remainingTime := seconds - elapsedTime
  if remainingTime > 0 then
    { db with expirationKeys := ainsert db.expirationKeys key (now + remainingTime) }
  else unsafeRemoveKey db key

/-- aof.go `replayExpireCommand`: parse failures are skipped, an absent
key is ignored, otherwise `applyExpiration`. -/
def replayExpireCommand (now : Int) (cmd : Command) (db : DB) : DB :=
  match parseExpirationSeconds cmd.value with
  | none => db
  | some seconds =>
    if (alookup db.store cmd.key).isSome then
      applyExpiration now cmd.key cmd.timestamp seconds db
    else db

/-- aof.go `replayCommand`. -/
def replayCommand (now : Int) (cmd : Command) (db : DB) : DB :=
  match cmd.name with
  | .SET => replaySetCommand now cmd db
  | .DELETE => replayDeleteCommand cmd db
  | .EXPIRE => replayExpireCommand now cmd db

/-- aof.go `LoadFromAof` over an already-decoded record list: replay
each record in file order at wall-clock time `now`. -/
def replayAll (now : Int) (cmds : List Command) (db : DB) : DB :=
  cmds.foldl (fun d c => replayCommand now c d) db

/-! ## Snapshot loading (snapshot.go `LoadFromSnapshot`) -/

/-- A JSON value as decoded by `encoding/json` into `any`: string, bool,
number (always Go `float64`), or anything else (objects, arrays,
null). -/
inductive JVal : Type
  | jstr (s : String)
  | jbool (b : Bool)
  | jnum (q : ℚ)
  | jother
deriving DecidableEq, Repr

/-- The value-restoration switch of `LoadFromSnapshot` (lines 164-196):
strings and booleans are kept; a JSON number `v` (a Go `float64`) is
kept as `float64(int(v))` when `v == float64(int(v))` (fractional part
zero) and as `v` otherwise — both branches produce a `float64`;
unsupported kinds give `nil` (here `none`) and the entry is dropped. -/
def restoreSnapshotValue : JVal → Option Value
  | .jstr s => some (.vstr s)
  | .jbool b => some (.vbool b)
  | .jnum q =>
    if (ratTrunc q : ℚ) = q then some (.vfloat (ratTrunc q : ℚ))
    else some (.vfloat q)
  | .jother => none

/-- snapshot.go `LoadFromSnapshot` applied to the parsed snapshot
object: each entry is an object whose `"value"` field is restored;
entries without the field or with an unsupported kind are skipped. -/
def loadFromSnapshot (snapshot : List (String × List (String × JVal))) :
    List (String × Value) :=
  snapshot.foldl
    (fun store entry =>
      match alookup entry.2 "value" with
      | none => store
      | some raw =>
        match restoreSnapshotValue raw with
        | none => store
        | some v => ainsert store entry.1 v)
    []

/-! ## Snapshot writing (snapshot.go `UpdateSnapshot`)

The file system is modelled at content level: the snapshot, temporary
and index-dump files hold parsed contents, the AOF file holds its list
of records. I/O failures are injected through an oracle mapping the
source's step names to `true` (fail) or `false` (succeed). -/

structure SnapshotFS : Type where
  snapshotFile : Option (List (String × Value))
  tmpFile : Option (List (String × Value))
  aofFile : List Command
  indexDumpFile : Option (Index × Index × Index)
deriving DecidableEq, Repr

/-- The keys of `db.store` whose deadline exists and is strictly past,
evicted by the walk at the top of `UpdateSnapshot`. -/
def expiredStoreKeys (now : Int) (db : DB) : List String :=
  (db.store.filter
    (fun p =>
      match alookup db.expirationKeys p.1 with
      | some d => decide (now > d)
      | none => false)).map Prod.fst

/-- The consistent cut serialized by `UpdateSnapshot`: the store without
its expired entries. -/
def snapshotEntries (now : Int) (db : DB) : List (String × Value) :=
  db.store.filter
    (fun p =>
      match alookup db.expirationKeys p.1 with
      | some d => decide (¬ now > d)
      | none => true)

/-- The in-memory effect of `UpdateSnapshot`'s walk: `UnsafeRemoveKey`
on every expired entry. -/
def updateSnapshotClean (now : Int) (db : DB) : DB :=
  (expiredStoreKeys now db).foldl (fun d k => unsafeRemoveKey d k) db

/-- The ordered `fileOperations` list of `UpdateSnapshot`, by source
step name, as content transformers. -/
def snapshotFileOps (snap : List (String × Value)) (dump : Index × Index × Index) :
    List (String × (SnapshotFS → SnapshotFS)) :=
  [("get_snapshot_path", fun fs => fs),
   ("write_temp_file", fun fs => { fs with tmpFile := some snap }),
   ("atomic_rename", fun fs => { fs with snapshotFile := fs.tmpFile, tmpFile := none }),
   ("truncate_aof", fun fs => { fs with aofFile := [] }),
   ("dump_indexes", fun fs => { fs with indexDumpFile := some dump })]

/-- Run the file-operation list in order, aborting at the first failing
step; returns the file system, the name of the failing step (if any) and
the names of the steps that executed. -/
def runFileOps (fails : String → Bool) :
    List (String × (SnapshotFS → SnapshotFS)) → SnapshotFS →
    SnapshotFS × Option String × List String
  | [], fs => (fs, none, [])
  | (name, f) :: rest, fs =>
    if fails name then (fs, some name, [])
    else
      let r := runFileOps fails rest (f fs)
      (r.1, r.2.1, name :: r.2.2)

/-- snapshot.go `UpdateSnapshot`: evict expired entries from the store
under the lock, then run the file steps in order (write the temporary
file, rename it over the snapshot, truncate the AOF, dump the indexes),
stopping at the first failure. -/
def updateSnapshot (now : Int) (fails : String → Bool) (db : DB) (fs : SnapshotFS) :
    DB × SnapshotFS × Option String × List String :=
  let db₁ := updateSnapshotClean now db
  let r := runFileOps fails
    (snapshotFileOps (snapshotEntries now db)
      (db₁.valueIndex, db₁.prefixIndex, db₁.suffixIndex)) fs
  (db₁, r)

/-! ## Sequences of Command API operations -/

/-- A mutating Command API call, for replay round-trip statements. -/
inductive Op : Type
  | opSet (key : String) (value : Value) (ttl : Int)
  | opDelete (key : String)
  | opSetExpiry (key : String) (seconds : Int)
deriving DecidableEq, Repr

/-- Execute one operation at wall-clock time `now`, discarding the
returned value/flag. -/
def execOp (now : Int) (op : Op) (db : DB) : DB :=
  match op with
  | .opSet key value ttl => (set now key value ttl db).1
  | .opDelete key => (deleteKey now key db).1
  | .opSetExpiry key seconds => (setExpiry now key seconds db).1

/-- Execute a timestamped operation sequence in order. -/
def execTimed (ops : List (Int × Op)) (db : DB) : DB :=
  ops.foldl (fun d p => execOp p.1 p.2 d) db

/-! ## The reverse-index membership invariant (spec section 8) -/

/-- One reverse index is consistent with a store: every entry's key set
is non-empty and every member key is present in the store. -/
def indexOk (store : List (String × Value)) (idx : Index) : Bool :=
  idx.all (fun p =>
    !p.2.keys.isEmpty && p.2.keys.all (fun k => (alookup store k).isSome))

/-- The spec's index invariant over all three reverse indexes. -/
def invariantHolds (db : DB) : Bool :=
  indexOk db.store db.valueIndex &&
  indexOk db.store db.prefixIndex &&
  indexOk db.store db.suffixIndex

/-! ## Concrete scenario states -/

/-- `set("k", "v", ttl=1)` at `t = 0` on a fresh database. -/
def dbSetK : DB := (set 0 "k" (.vstr "v") 1 emptyDB).1

/-- ... then `get_ttl("k")` at `t = 2`: the deadline (1) has passed, so
the entry is evicted. -/
def dbAfterGetTtl : DB := (getTtl 2 "k" dbSetK).1

/-- ... or `get("k")` at `t = 2` instead: on-read eviction. -/
def dbAfterGet : DB := (get 2 "k" dbSetK).1

/-- ... then, after the `get` eviction, `set("k", "v", ttl=0)` at
`t = 3` re-inserts the key (it succeeded because the store entry was
evicted) while the stale index occurrences are still present. -/
def dbResetK : DB := (set 3 "k" (.vstr "v") 0 dbAfterGet).1

/-- The operation sequence `set("k", "v", 0)` at `t = 10` followed by
`set_expiry("k", 0)` at `t = 11` (a deadline-clearing EXPIRE). -/
def opsExpireZero : List (Int × Op) :=
  [(10, .opSet "k" (.vstr "v") 0), (11, .opSetExpiry "k" 0)]

/-- The in-memory state those two operations produce. -/
def dbExpireZero : DB := execTimed opsExpireZero emptyDB

/-- A SET record with ttl 0, as written by `set("k", "v", 0)` at
`t = 0`. -/
def setRecordNoTtl : Command :=
  { name := .SET, key := "k", value := ⟨"string", .wstr "v"⟩,
    ttl := some 0, timestamp := 0 }

/-! ## Replay round-trip side conditions (claim C3, amended) -/

/-- Pointwise agreement of store contents and expiration maps. -/
def StoreAgrees (a b : DB) : Prop :=
  (∀ k, alookup a.store k = alookup b.store k) ∧
  (∀ k, alookup a.expirationKeys k = alookup b.expirationKeys k)

/-- Every key of the expiration map is present in the store. -/
def ExpiryInStore (db : DB) : Prop :=
  ∀ k d, alookup db.expirationKeys k = some d → (alookup db.store k).isSome

/-- Replay invariant: replaying the accumulated AOF buffer at time `T`
against a fresh database reproduces the current store and expiration
map. -/
def ReplayInv (T : Int) (db : DB) : Prop :=
  StoreAgrees (replayAll T db.aofBuffer emptyDB) db ∧ ExpiryInStore db

/-- Side conditions under which one timed operation round-trips through
the AOF (each is forced by a concrete counterexample): `set` values must
be of a supported type and a positive ttl's deadline must lie after the
replay time `T`; `set_expiry` must not carry `seconds = 0` (the replayed
EXPIRE would evict the key instead of clearing its deadline) and a
positive `seconds` deadline must lie after `T`. -/
def validForReplay (T : Int) : Int × Op → Prop
  | (t, .opSet _ v ttl) => v ≠ Value.vother ∧ (ttl ≤ 0 ∨ t + ttl > T)
  | (_, .opDelete _) => True
  | (t, .opSetExpiry _ s) => s < 0 ∨ (s > 0 ∧ t + s > T)

instance (T : Int) (p : Int × Op) : Decidable (validForReplay T p) :=
  match p with
  | (t, Op.opSet _ v ttl) =>
    inferInstanceAs (Decidable (v ≠ Value.vother ∧ (ttl ≤ 0 ∨ t + ttl > T)))
  | (_, Op.opDelete _) => inferInstanceAs (Decidable True)
  | (t, Op.opSetExpiry _ s) =>
    inferInstanceAs (Decidable (s < 0 ∨ (s > 0 ∧ t + s > T)))

/-- The ordered step names of `UpdateSnapshot`'s `fileOperations`. -/
def snapshotStepNames : List String :=
  ["get_snapshot_path", "write_temp_file", "atomic_rename", "truncate_aof",
   "dump_indexes"]


/-- A small operation sequence satisfying the replay-round-trip side
conditions at `T = 4`. -/
def roundTripOps : List (Int × Op) :=
  [(0, .opSet "a" (.vstr "x") 0), (1, .opSet "b" (.vint 2) 10),
   (2, .opDelete "a"), (3, .opSetExpiry "b" 5)]

/-- A failure oracle making exactly the `atomic_rename` step fail. -/
def failAtRename : String → Bool := fun n => n == "atomic_rename"

/-! ## Helper lemmas -/

theorem alookup_ainsert {α : Type} (l : List (String × α)) (k : String) (v : α)
    (q : String) :
    alookup (ainsert l k v) q = if k = q then some v else alookup l q := by
  induction l with
  | nil => simp [ainsert, alookup]
  | cons p t ih =>
    obtain ⟨a, b⟩ := p
    simp only [ainsert]
    by_cases hak : a = k
    · subst hak
      rw [if_pos rfl]
      by_cases haq : a = q
      · subst haq
        simp [alookup]
      · simp [alookup, haq]
    · rw [if_neg hak]
      simp only [alookup]
      by_cases haq : a = q
      · subst haq
        have hkq : ¬ k = a := fun h => hak h.symm
        simp [alookup, hkq]
      · rw [if_neg haq, ih]
        by_cases hkq : k = q
        · simp [hkq]
        · simp [alookup, hkq, haq]

theorem alookup_aerase {α : Type} (l : List (String × α)) (k q : String) :
    alookup (aerase l k) q = if k = q then none else alookup l q := by
  induction l with
  | nil => simp [aerase, alookup]
  | cons p t ih =>
    obtain ⟨a, b⟩ := p
    simp only [aerase]
    by_cases hak : a = k
    · subst hak
      rw [if_pos rfl, ih]
      by_cases haq : a = q
      · subst haq
        simp [alookup]
      · simp [alookup, haq]
    · rw [if_neg hak]
      simp only [alookup]
      by_cases haq : a = q
      · subst haq
        have hkq : ¬ k = a := fun h => hak h.symm
        simp [alookup, hkq]
      · rw [if_neg haq, ih]
        by_cases hkq : k = q
        · simp [hkq]
        · simp [alookup, hkq, haq]


theorem ratTrunc_intCast (n : Int) : ratTrunc (n : ℚ) = n := by
  simp [ratTrunc, Rat.num_intCast, Rat.den_intCast, Int.tdiv_one]

theorem replayAll_append (T : Int) (l m : List Command) (db : DB) :
    replayAll T (l ++ m) db = replayAll T m (replayAll T l db) := by
  simp [replayAll, List.foldl_append]

theorem deserialize_commandValueOf (v : Value) (cv : CommandValue)
    (h : commandValueOf v = some cv) : DeserializeCommandValue cv = some v := by
  cases v with
  | vstr s =>
    simp [commandValueOf] at h
    simp [← h, DeserializeCommandValue]
  | vint n =>
    simp [commandValueOf] at h
    simp [← h, DeserializeCommandValue, ratTrunc_intCast]
  | vbool b =>
    simp [commandValueOf] at h
    simp [← h, DeserializeCommandValue]
  | vfloat q =>
    simp [commandValueOf] at h
    simp [← h, DeserializeCommandValue]
  | vother => simp [commandValueOf] at h

theorem addToIndex_store (db : DB) (k : String) (v : Value) :
    (addToIndex db k v).store = db.store := rfl

theorem addToIndex_expirationKeys (db : DB) (k : String) (v : Value) :
    (addToIndex db k v).expirationKeys = db.expirationKeys := rfl

theorem addToIndex_aofBuffer (db : DB) (k : String) (v : Value) :
    (addToIndex db k v).aofBuffer = db.aofBuffer := rfl

theorem removeFromIndex_store (db : DB) (k : String) (v : Value) :
    (removeFromIndex db k v).store = db.store := rfl

theorem removeFromIndex_expirationKeys (db : DB) (k : String) (v : Value) :
    (removeFromIndex db k v).expirationKeys = db.expirationKeys := rfl

theorem removeFromIndex_aofBuffer (db : DB) (k : String) (v : Value) :
    (removeFromIndex db k v).aofBuffer = db.aofBuffer := rfl

theorem sweepFold_aofBuffer (l : List String) (d : DB) :
    (l.foldl evictBothMaps d).aofBuffer = d.aofBuffer := by
  induction l generalizing d with
  | nil => rfl
  | cons a t ih => simp [List.foldl_cons, ih, evictBothMaps]

theorem removeKeyFromSlice_length (l : List String) (key : String) (h : key ∈ l) :
    (removeKeyFromSlice l key).length + 1 = l.length := by
  induction l with
  | nil => cases h
  | cons a t ih =>
    by_cases ha : a = key
    · simp [removeKeyFromSlice, ha]
    · have ht : key ∈ t := by
        cases h with
        | head => exact absurd rfl ha
        | tail _ h2 => exact h2
      simp [removeKeyFromSlice, ha, ih ht]

theorem removeKeyFromSlice_count (l : List String) (key : String) (h : key ∈ l) :
    (removeKeyFromSlice l key).count key + 1 = l.count key := by
  induction l with
  | nil => cases h
  | cons a t ih =>
    by_cases ha : a = key
    · subst ha
      simp [removeKeyFromSlice, List.count_cons]
    · have ht : key ∈ t := by
        cases h with
        | head => exact absurd rfl ha
        | tail _ h2 => exact h2
      simp [removeKeyFromSlice, ha, List.count_cons, ih ht]

theorem indexAdd_appends (idx : Index) (ikey key : String) (e : IndexEntry)
    (hentry : alookup idx ikey = some e) :
    alookup (indexAdd idx ikey key) ikey = some ⟨e.keys ++ [key]⟩ := by
  simp [indexAdd, hentry, alookup_ainsert]

theorem set_success (t : Int) (key : String) (v : Value) (ttl : Int) (db : DB)
    (cv : CommandValue)
    (habs : alookup db.store key = none) (hcv : commandValueOf v = some cv) :
    (set t key v ttl db).1.store = ainsert db.store key v ∧
    (set t key v ttl db).1.expirationKeys =
      (if ttl > 0 then ainsert db.expirationKeys key (t + ttl)
       else aerase db.expirationKeys key) ∧
    (set t key v ttl db).1.aofBuffer = db.aofBuffer ++
      [{ name := .SET, key := key, value := cv, ttl := some ttl, timestamp := t }] := by
  by_cases ht : ttl > 0 <;>
    simp [set, habs, hcv, ht, addToIndex_store, addToIndex_expirationKeys,
      addToIndex_aofBuffer]

theorem set_fail_exists (t : Int) (key : String) (v : Value) (ttl : Int) (db : DB)
    (hpres : (alookup db.store key).isSome = true) :
    (set t key v ttl db).1 = db := by
  simp [set, hpres]

theorem deleteKey_success (t : Int) (key : String) (db : DB) (w : Value)
    (hpres : alookup db.store key = some w) :
    (deleteKey t key db).1.store = aerase db.store key ∧
    (deleteKey t key db).1.expirationKeys = aerase db.expirationKeys key ∧
    (deleteKey t key db).1.aofBuffer = db.aofBuffer ++
      [{ name := .DELETE, key := key, value := emptyCommandValue,
         ttl := none, timestamp := t }] := by
  simp [deleteKey, hpres, unsafeRemoveKey, removeFromIndex_store,
    removeFromIndex_expirationKeys, removeFromIndex_aofBuffer]

theorem deleteKey_absent (t : Int) (key : String) (db : DB)
    (habs : alookup db.store key = none) :
    (deleteKey t key db).1 = db := by
  simp [deleteKey, habs]

theorem setExpiry_pos (t : Int) (key : String) (s : Int) (db : DB) (w : Value)
    (hpres : alookup db.store key = some w) (hs : s > 0) :
    (setExpiry t key s db).1.store = db.store ∧
    (setExpiry t key s db).1.expirationKeys = ainsert db.expirationKeys key (t + s) ∧
    (setExpiry t key s db).1.aofBuffer = db.aofBuffer ++
      [{ name := .EXPIRE, key := key, value := ⟨"float64", .wnum (s : ℚ)⟩,
         ttl := none, timestamp := t }] := by
  have h1 : ¬ s < 0 := by omega
  simp [setExpiry, hpres, hs, h1]

theorem setExpiry_neg (t : Int) (key : String) (s : Int) (db : DB) (w : Value)
    (hpres : alookup db.store key = some w) (hs : s < 0) :
    (setExpiry t key s db).1 = db := by
  have h1 : ¬ s > 0 := by omega
  have h2 : ¬ s = 0 := by omega
  simp [setExpiry, hpres, hs, h1, h2]

theorem setExpiry_absent (t : Int) (key : String) (s : Int) (db : DB)
    (habs : alookup db.store key = none) :
    (setExpiry t key s db).1 = db := by
  simp [setExpiry, habs]

theorem replay_set_cmd (T t ttl : Int) (key : String) (cv : CommandValue) (v : Value)
    (R : DB) (hdv : DeserializeCommandValue cv = some v) :
    replayCommand T { name := .SET, key := key, value := cv, ttl := some ttl,
                      timestamp := t } R
      = if ttl ≤ 0 then { R with store := ainsert R.store key v }
        else if t + ttl > T then
          { R with store := ainsert R.store key v,
                   expirationKeys := ainsert R.expirationKeys key (t + ttl) }
        else unsafeRemoveKey { R with store := ainsert R.store key v } key := by
  by_cases h1 : ttl ≤ 0
  · simp [replayCommand, replaySetCommand, hdv, handleTtlRestoration, h1]
  · by_cases h2 : t + ttl > T <;>
      simp [replayCommand, replaySetCommand, hdv, handleTtlRestoration, h1, h2]

theorem replay_delete_cmd (T t : Int) (key : String) (R : DB) :
    replayCommand T { name := .DELETE, key := key, value := emptyCommandValue,
                      ttl := none, timestamp := t } R
      = unsafeRemoveKey R key := by
  simp [replayCommand, replayDeleteCommand, SafeRemoveKey]

theorem replay_expire_cmd (T t s : Int) (key : String) (R : DB)
    (hpres : (alookup R.store key).isSome = true) :
    replayCommand T { name := .EXPIRE, key := key,
                      value := ⟨"float64", .wnum (s : ℚ)⟩, ttl := none,
                      timestamp := t } R
      = if s - (T - t) > 0 then
          { R with expirationKeys := ainsert R.expirationKeys key (T + (s - (T - t))) }
        else unsafeRemoveKey R key := by
  by_cases h : s - (T - t) > 0 <;>
    simp [replayCommand, replayExpireCommand, parseExpirationSeconds, ratTrunc_intCast,
      hpres, applyExpiration, h]

theorem replayAll_snoc (T : Int) (l : List Command) (c : Command) (db : DB) :
    replayAll T (l ++ [c]) db = replayCommand T c (replayAll T l db) := by
  simp [replayAll, List.foldl_append]

theorem replayInv_step (T t : Int) (op : Op) (db : DB)
    (hInv : ReplayInv T db) (hval : validForReplay T (t, op)) :
    ReplayInv T (execOp t op db) := by
  obtain ⟨⟨hIs, hIe⟩, hsub⟩ := hInv
  cases op with
  | opSet key v ttl =>
    simp only [validForReplay] at hval
    obtain ⟨hvo, httl⟩ := hval
    simp only [execOp]
    cases hpres : alookup db.store key with
    | some w =>
      rw [set_fail_exists t key v ttl db (by simp [hpres])]
      exact ⟨⟨hIs, hIe⟩, hsub⟩
    | none =>
      obtain ⟨cv, hcv⟩ : ∃ cv, commandValueOf v = some cv := by
        cases v with
        | vother => exact absurd rfl hvo
        | vstr s => exact ⟨_, rfl⟩
        | vint n => exact ⟨_, rfl⟩
        | vbool b => exact ⟨_, rfl⟩
        | vfloat q => exact ⟨_, rfl⟩
      obtain ⟨hst, hexp, hbuf⟩ := set_success t key v ttl db cv hpres hcv
      have hednone : alookup db.expirationKeys key = none := by
        cases h : alookup db.expirationKeys key with
        | none => rfl
        | some d =>
          have h2 := hsub key d h
          rw [hpres] at h2
          simp at h2
      have hdv := deserialize_commandValueOf v cv hcv
      refine ⟨⟨?_, ?_⟩, ?_⟩
      · intro q
        rw [hbuf, replayAll_snoc, replay_set_cmd T t ttl key cv v _ hdv, hst]
        by_cases h1 : ttl ≤ 0
        · rw [if_pos h1]
          simp [alookup_ainsert, hIs q]
        · rw [if_neg h1]
          have h2 : t + ttl > T := by
            rcases httl with h | h
            · omega
            · exact h
          rw [if_pos h2]
          simp [alookup_ainsert, hIs q]
      · intro q
        rw [hbuf, replayAll_snoc, replay_set_cmd T t ttl key cv v _ hdv, hexp]
        by_cases h1 : ttl ≤ 0
        · have h3 : ¬ ttl > 0 := by omega
          rw [if_pos h1, if_neg h3]
          by_cases hq : key = q
          · subst hq
            simp [alookup_aerase, hIe key, hednone]
          · simp [alookup_aerase, hq, hIe q]
        · rw [if_neg h1]
          have h2 : t + ttl > T := by
            rcases httl with h | h
            · omega
            · exact h
          have h3 : ttl > 0 := by omega
          rw [if_pos h2, if_pos h3]
          simp [alookup_ainsert, hIe q]
      · intro q d hqd
        rw [hexp] at hqd
        have hstq := hst
        by_cases h1 : ttl > 0
        · rw [if_pos h1, alookup_ainsert] at hqd
          by_cases hq : key = q
          · subst hq
            rw [hstq]
            simp [alookup_ainsert]
          · rw [if_neg hq] at hqd
            have h4 := hsub q d hqd
            rw [hstq]
            rw [alookup_ainsert, if_neg hq]
            exact h4
        · rw [if_neg h1, alookup_aerase] at hqd
          by_cases hq : key = q
          · rw [if_pos hq] at hqd
            cases hqd
          · rw [if_neg hq] at hqd
            have h4 := hsub q d hqd
            rw [hstq, alookup_ainsert, if_neg hq]
            exact h4
  | opDelete key =>
    simp only [execOp]
    cases hpres : alookup db.store key with
    | none =>
      rw [deleteKey_absent t key db hpres]
      exact ⟨⟨hIs, hIe⟩, hsub⟩
    | some w =>
      obtain ⟨hst, hexp, hbuf⟩ := deleteKey_success t key db w hpres
      refine ⟨⟨?_, ?_⟩, ?_⟩
      · intro q
        rw [hbuf, replayAll_snoc, replay_delete_cmd, hst]
        simp only [unsafeRemoveKey]
        simp [alookup_aerase, hIs q]
      · intro q
        rw [hbuf, replayAll_snoc, replay_delete_cmd, hexp]
        simp only [unsafeRemoveKey]
        simp [alookup_aerase, hIe q]
      · intro q d hqd
        rw [hexp, alookup_aerase] at hqd
        rw [hst]
        by_cases hq : key = q
        · rw [if_pos hq] at hqd
          cases hqd
        · rw [if_neg hq] at hqd
          have h4 := hsub q d hqd
          rw [alookup_aerase, if_neg hq]
          exact h4
  | opSetExpiry key s =>
    simp only [validForReplay] at hval
    simp only [execOp]
    cases hpres : alookup db.store key with
    | none =>
      rw [setExpiry_absent t key s db hpres]
      exact ⟨⟨hIs, hIe⟩, hsub⟩
    | some w =>
      rcases hval with hneg | ⟨hpos, hTs⟩
      · rw [setExpiry_neg t key s db w hpres hneg]
        exact ⟨⟨hIs, hIe⟩, hsub⟩
      · obtain ⟨hst, hexp, hbuf⟩ := setExpiry_pos t key s db w hpres hpos
        have hRpres : (alookup (replayAll T db.aofBuffer emptyDB).store key).isSome = true := by
          rw [hIs key, hpres]
          rfl
        have hrem : s - (T - t) > 0 := by omega
        refine ⟨⟨?_, ?_⟩, ?_⟩
        · intro q
          rw [hbuf, replayAll_snoc, replay_expire_cmd T t s key _ hRpres, hst,
            if_pos hrem]
          exact hIs q
        · intro q
          rw [hbuf, replayAll_snoc, replay_expire_cmd T t s key _ hRpres, hexp,
            if_pos hrem]
          have harith : T + (s - (T - t)) = t + s := by omega
          rw [harith]
          simp [alookup_ainsert, hIe q]
        · intro q d hqd
          rw [hexp, alookup_ainsert] at hqd
          rw [hst]
          by_cases hq : key = q
          · subst hq
            simp [hpres]
          · rw [if_neg hq] at hqd
            exact hsub q d hqd

theorem replayInv_execTimed (T : Int) (ops : List (Int × Op)) (db : DB)
    (hInv : ReplayInv T db) (hval : ∀ p ∈ ops, validForReplay T p) :
    ReplayInv T (execTimed ops db) := by
  induction ops generalizing db with
  | nil => exact hInv
  | cons p rest ih =>
    obtain ⟨t, op⟩ := p
    have h1 := replayInv_step T t op db hInv (hval (t, op) (by simp))
    exact ih (execOp t op db) h1 (fun q hq => hval q (by simp [hq]))

theorem replayInv_empty (T : Int) : ReplayInv T emptyDB := by
  refine ⟨⟨fun k => rfl, fun k => rfl⟩, ?_⟩
  intro k d h
  simp [emptyDB, alookup] at h


/-! ## Claim theorems -/

/-- Claim C1. The claimed invariant — between any two Command API calls,
every reverse-index member set is non-empty and every member key is
present in the store, even after an eviction performed by `get`,
`get_ttl` or the sweeper — is violated by the code: after
`set("k", "v", ttl = 1)` at `t = 0` and `get_ttl("k")` at `t = 2`, the
expired entry has been evicted from the store and the expiration map,
yet all three reverse indexes still list `"k"`, so `invariantHolds` is
false on the reached state. The eviction paths (get, get_ttl, sweeper)
remove the key from the two maps only and never call `removeFromIndex`,
unlike `Delete`. -/
theorem c1_invariant_broken_after_expiry_eviction :
    invariantHolds dbAfterGetTtl = false ∧
    alookup dbAfterGetTtl.valueIndex "v" = some ⟨["k"]⟩ ∧
    alookup dbAfterGetTtl.prefixIndex "k" = some ⟨["k"]⟩ ∧
    alookup dbAfterGetTtl.suffixIndex "k" = some ⟨["k"]⟩ ∧
    alookup dbAfterGetTtl.store "k" = none ∧
    alookup dbAfterGetTtl.expirationKeys "k" = none ∧
    (getTtl 2 "k" dbSetK).2 = (-1, false) := by decide

/-- Claim C2 (counterexample). The claim states that `get` on an expired
key evicts it from the store, the expiration map, and all three reverse
indexes. On the concrete run `set("k","v",1)` at `t = 0` then `get("k")`
at `t = 2`, `get` returns `KeyExpired` and removes the key from the two
maps, but the key is still listed in the value, prefix and suffix
indexes — contradicting the index-eviction part of the claim. -/
theorem c2_get_leaves_indexes_counterexample :
    (get 2 "k" dbSetK).2 = (none, some .keyExpired) ∧
    alookup dbAfterGet.store "k" = none ∧
    alookup dbAfterGet.expirationKeys "k" = none ∧
    alookup dbAfterGet.valueIndex "v" = some ⟨["k"]⟩ ∧
    alookup dbAfterGet.prefixIndex "k" = some ⟨["k"]⟩ ∧
    alookup dbAfterGet.suffixIndex "k" = some ⟨["k"]⟩ := by decide

/-- Claim C2 (amended). For every key whose recorded deadline is strictly
less than the current time, `get(key)` evicts the key from the store and
the expiration map — but not from the reverse indexes, which are left
unchanged — appends exactly one DELETE command record to the AOF buffer,
and returns `KeyExpired`; for a present non-expired key it returns the
value, and for an absent key it returns `KeyNotFound` (state
unchanged in both of the latter cases). -/
theorem c2_get_contract (db : DB) (key : String) (now : Int) :
    ((∃ d, alookup db.expirationKeys key = some d ∧ now > d) →
      (get now key db).2 = (none, some Err.keyExpired) ∧
      alookup (get now key db).1.store key = none ∧
      alookup (get now key db).1.expirationKeys key = none ∧
      (get now key db).1.valueIndex = db.valueIndex ∧
      (get now key db).1.prefixIndex = db.prefixIndex ∧
      (get now key db).1.suffixIndex = db.suffixIndex ∧
      (get now key db).1.aofBuffer = db.aofBuffer ++
        [{ name := .DELETE, key := key, value := emptyCommandValue,
           ttl := none, timestamp := now }]) ∧
    ((∀ d, alookup db.expirationKeys key = some d → now ≤ d) →
      (get now key db).1 = db ∧
      (get now key db).2 = (match alookup db.store key with
        | some v => (some v, none)
        | none => (none, some Err.keyNotFound))) := by
  constructor
  · rintro ⟨d, hd, hnow⟩
    simp [get, hd, hnow, unsafeRemoveKey, alookup_aerase]
  · intro hle
    cases hd : alookup db.expirationKeys key with
    | none => cases hs : alookup db.store key <;> simp [get, hd, hs]
    | some d =>
      have h1 := hle d hd
      have hn : ¬ now > d := by omega
      cases hs : alookup db.store key <;> simp [get, hd, hn, hs]

/-- Claim C2 (witness): the expired branch of `c2_get_contract` at the
concrete state `dbSetK`, key `"k"`, time 2. -/
theorem c2_get_contract_witness :
    (get 2 "k" dbSetK).2 = (none, some Err.keyExpired) ∧
    alookup (get 2 "k" dbSetK).1.store "k" = none ∧
    alookup (get 2 "k" dbSetK).1.expirationKeys "k" = none := by
  have h := (c2_get_contract dbSetK "k" 2).1 ⟨1, by decide, by decide⟩
  exact ⟨h.1, h.2.1, h.2.2.1⟩

/-- Claim C3 (counterexample). `set("k","v",0)` at `t = 10` then
`set_expiry("k", 0)` at `t = 11` leave `"k"` in the store with no
deadline, but replaying the two emitted AOF records at `T = 11` (the
very time the run finished) yields an empty store: the EXPIRE record
with payload 0 is replayed through `applyExpiration`, whose remaining
time `0 - (11 - 11) = 0` is not positive, so the key is evicted instead
of having its deadline cleared. -/
theorem c3_expire_zero_counterexample :
    alookup dbExpireZero.store "k" = some (.vstr "v") ∧
    alookup dbExpireZero.expirationKeys "k" = none ∧
    alookup (replayAll 11 dbExpireZero.aofBuffer emptyDB).store "k" = none ∧
    alookup (replayAll 11 dbExpireZero.aofBuffer emptyDB).expirationKeys "k" = none := by
  decide

/-- Claim C3 (amended). For every sequence of mutating Command API
operations (set / delete / set_expiry) executed at their timestamps,
replaying the emitted AOF records at time `T` against an empty store
reproduces exactly the same store contents and expiration map (absolute
deadlines preserved), provided: every `set` carries a supported value
type; no successful `set_expiry` has `seconds = 0` (its EXPIRE record
evicts the key on replay instead of clearing the deadline); and every
deadline written (`timestamp + ttl`, `timestamp + seconds`) lies
strictly after `T` (a record whose deadline has passed is dropped on
replay while the lazily-expired original entry is still present). -/
theorem c3_replay_roundtrip (T : Int) (ops : List (Int × Op))
    (hval : ∀ p ∈ ops, validForReplay T p) :
    (∀ k, alookup (replayAll T (execTimed ops emptyDB).aofBuffer emptyDB).store k
        = alookup (execTimed ops emptyDB).store k) ∧
    (∀ k, alookup (replayAll T (execTimed ops emptyDB).aofBuffer emptyDB).expirationKeys k
        = alookup (execTimed ops emptyDB).expirationKeys k) := by
  exact (replayInv_execTimed T ops emptyDB (replayInv_empty T) hval).1

/-- Claim C3 (witness): the round trip at `T = 4` for the concrete
sequence `roundTripOps`, observed at key `"b"`. -/
theorem c3_replay_roundtrip_witness :
    alookup (replayAll 4 (execTimed roundTripOps emptyDB).aofBuffer emptyDB).store "b"
      = alookup (execTimed roundTripOps emptyDB).store "b" ∧
    alookup (replayAll 4 (execTimed roundTripOps emptyDB).aofBuffer emptyDB).expirationKeys "b"
      = alookup (execTimed roundTripOps emptyDB).expirationKeys "b" := by
  have h := c3_replay_roundtrip 4 roundTripOps (by decide)
  exact ⟨h.1 "b", h.2 "b"⟩

/-- Claim C4 (counterexample). Replaying the SET record
`{SET, "k", "v", ttl 0, t 0}` at time 5 on a fresh database inserts the
value into the store but leaves all three reverse indexes empty — the
value is not inserted into the reverse indexes during replay,
contradicting the final conjunct of the claim. -/
theorem c4_replay_set_counterexample :
    alookup (replayCommand 5 setRecordNoTtl emptyDB).store "k" = some (.vstr "v") ∧
    (replayCommand 5 setRecordNoTtl emptyDB).valueIndex = [] ∧
    (replayCommand 5 setRecordNoTtl emptyDB).prefixIndex = [] ∧
    (replayCommand 5 setRecordNoTtl emptyDB).suffixIndex = [] := by decide

/-- Claim C4 (amended). Replaying a SET record reconstructs the tagged
value and, when the record carries a positive ttl, computes the absolute
deadline `record.timestamp + record.ttl`; if that deadline is `≤ now`
the key is dropped from both the store and the expiration map, otherwise
the key is inserted with that deadline set. The reverse indexes are not
modified by SET replay. -/
theorem c4_replay_set (now : Int) (cmd : Command) (db : DB) (v : Value)
    (hname : cmd.name = .SET)
    (hval : DeserializeCommandValue cmd.value = some v) :
    (replayCommand now cmd db).valueIndex = db.valueIndex ∧
    (replayCommand now cmd db).prefixIndex = db.prefixIndex ∧
    (replayCommand now cmd db).suffixIndex = db.suffixIndex ∧
    ((cmd.ttl = none ∨ ∃ t, cmd.ttl = some t ∧ t ≤ 0) →
      alookup (replayCommand now cmd db).store cmd.key = some v ∧
      (replayCommand now cmd db).expirationKeys = db.expirationKeys) ∧
    (∀ t, cmd.ttl = some t → t > 0 → cmd.timestamp + t ≤ now →
      alookup (replayCommand now cmd db).store cmd.key = none ∧
      alookup (replayCommand now cmd db).expirationKeys cmd.key = none) ∧
    (∀ t, cmd.ttl = some t → t > 0 → cmd.timestamp + t > now →
      alookup (replayCommand now cmd db).store cmd.key = some v ∧
      alookup (replayCommand now cmd db).expirationKeys cmd.key
        = some (cmd.timestamp + t)) := by
  simp only [replayCommand, hname, replaySetCommand, hval]
  refine ⟨?_, ?_, ?_, ?_, ?_, ?_⟩
  · cases httl : cmd.ttl with
    | none => simp [handleTtlRestoration, httl]
    | some t =>
      by_cases ht : t ≤ 0
      · simp [handleTtlRestoration, httl, ht]
      · by_cases hexp : cmd.timestamp + t > now <;>
          simp [handleTtlRestoration, httl, ht, hexp, unsafeRemoveKey]
  · cases httl : cmd.ttl with
    | none => simp [handleTtlRestoration, httl]
    | some t =>
      by_cases ht : t ≤ 0
      · simp [handleTtlRestoration, httl, ht]
      · by_cases hexp : cmd.timestamp + t > now <;>
          simp [handleTtlRestoration, httl, ht, hexp, unsafeRemoveKey]
  · cases httl : cmd.ttl with
    | none => simp [handleTtlRestoration, httl]
    | some t =>
      by_cases ht : t ≤ 0
      · simp [handleTtlRestoration, httl, ht]
      · by_cases hexp : cmd.timestamp + t > now <;>
          simp [handleTtlRestoration, httl, ht, hexp, unsafeRemoveKey]
  · rintro (hn | ⟨t, ht, ht0⟩)
    · simp [handleTtlRestoration, hn, alookup_ainsert]
    · simp [handleTtlRestoration, ht, ht0, alookup_ainsert]
  · intro t ht ht0 hle
    have hn : ¬ (t ≤ 0) := by omega
    have hx : ¬ (cmd.timestamp + t > now) := by omega
    simp [handleTtlRestoration, ht, hn, hx, unsafeRemoveKey, alookup_aerase]
  · intro t ht ht0 hgt
    have hn : ¬ (t ≤ 0) := by omega
    simp [handleTtlRestoration, ht, hn, hgt, alookup_ainsert]

/-- Claim C4 (witness): `c4_replay_set` at the record `setRecordNoTtl`
on a fresh database at time 5. -/
theorem c4_replay_set_witness :
    alookup (replayCommand 5 setRecordNoTtl emptyDB).store "k" = some (.vstr "v") ∧
    (replayCommand 5 setRecordNoTtl emptyDB).valueIndex = emptyDB.valueIndex := by
  have h := c4_replay_set 5 setRecordNoTtl emptyDB (.vstr "v") (by decide) (by decide)
  exact ⟨(h.2.2.2.1 (Or.inr ⟨0, rfl, by decide⟩)).1, h.1⟩

/-- Claim C5. `UpdateSnapshot` runs its file steps in source order
(path check, write the temporary snapshot, atomic rename, truncate the
AOF, dump the indexes), aborting at the first failing step: the executed
steps are the maximal failure-free prefix and the reported error is the
first failing step; on success the AOF file is empty and the snapshot
file holds the serialized cut; any failure at or before the rename
leaves the previous snapshot file and the AOF untouched; and the AOF is
truncated only in runs where the rename (and everything before it)
succeeded. -/
theorem c5_update_snapshot_ordering (now : Int) (fails : String → Bool) (db : DB)
    (fs : SnapshotFS) :
    ((updateSnapshot now fails db fs).2.2.2 =
      snapshotStepNames.takeWhile (fun n => !(fails n))) ∧
    ((updateSnapshot now fails db fs).2.2.1 =
      snapshotStepNames.find? (fun n => fails n)) ∧
    ((updateSnapshot now fails db fs).2.2.1 = none →
      (updateSnapshot now fails db fs).2.1.aofFile = [] ∧
      (updateSnapshot now fails db fs).2.1.snapshotFile =
        some (snapshotEntries now db)) ∧
    ((fails "get_snapshot_path" || fails "write_temp_file" ||
        fails "atomic_rename") = true →
      (updateSnapshot now fails db fs).2.1.snapshotFile = fs.snapshotFile ∧
      (updateSnapshot now fails db fs).2.1.aofFile = fs.aofFile) ∧
    ("truncate_aof" ∈ (updateSnapshot now fails db fs).2.2.2 →
      "atomic_rename" ∈ (updateSnapshot now fails db fs).2.2.2 ∧
      "write_temp_file" ∈ (updateSnapshot now fails db fs).2.2.2) := by
  cases h1 : fails "get_snapshot_path" <;>
  cases h2 : fails "write_temp_file" <;>
  cases h3 : fails "atomic_rename" <;>
  cases h4 : fails "truncate_aof" <;>
  cases h5 : fails "dump_indexes" <;>
    simp [updateSnapshot, runFileOps, snapshotFileOps, snapshotStepNames,
      List.takeWhile, List.find?, h1, h2, h3, h4, h5]

/-- Claim C5 (witness): with only the `atomic_rename` step failing, the
previous snapshot file and AOF contents are left untouched. -/
theorem c5_update_snapshot_ordering_witness :
    (updateSnapshot 0 failAtRename emptyDB
      ⟨some [], none, [setRecordNoTtl], none⟩).2.1.snapshotFile = some [] ∧
    (updateSnapshot 0 failAtRename emptyDB
      ⟨some [], none, [setRecordNoTtl], none⟩).2.1.aofFile = [setRecordNoTtl] := by
  have h := c5_update_snapshot_ordering 0 failAtRename emptyDB
    ⟨some [], none, [setRecordNoTtl], none⟩
  exact h.2.2.2.1 (by decide)

/-- Claim C6 (counterexample). `set("k", unsupported, ttl = 1)` on a
fresh database returns `UnsupportedValueType` and appends nothing to the
AOF buffer, but it does NOT leave the state as it was: the key has been
inserted into the store, the expiration map (deadline 1), and the
reverse indexes (under the empty stringification) — contradicting the
state-unchanged-on-error part of the claim. -/
theorem c6_set_unsupported_counterexample :
    (set 0 "k" .vother 1 emptyDB).2 = some .unsupportedValueType ∧
    (set 0 "k" .vother 1 emptyDB).1.aofBuffer = [] ∧
    alookup (set 0 "k" .vother 1 emptyDB).1.store "k" = some .vother ∧
    alookup (set 0 "k" .vother 1 emptyDB).1.expirationKeys "k" = some 1 ∧
    alookup (set 0 "k" .vother 1 emptyDB).1.valueIndex "" = some ⟨["k"]⟩ := by decide

/-- Claim C6 (amended). `set(key, value, ttl)` with a value outside the
four accepted variants on an absent key fails with
`UnsupportedValueType` and appends no record to the AOF buffer, but the
mutations performed before the type switch remain applied: the key is in
the store, the value has been added to the reverse indexes (under the
empty stringification), and the expiration map holds `now + ttl` when
`ttl > 0` (no entry otherwise). -/
theorem c6_set_unsupported (now : Int) (key : String) (ttl : Int) (db : DB)
    (habs : alookup db.store key = none) :
    (set now key .vother ttl db).2 = some Err.unsupportedValueType ∧
    (set now key .vother ttl db).1.aofBuffer = db.aofBuffer ∧
    alookup (set now key .vother ttl db).1.store key = some .vother ∧
    (ttl > 0 →
      alookup (set now key .vother ttl db).1.expirationKeys key = some (now + ttl)) ∧
    (ttl ≤ 0 →
      alookup (set now key .vother ttl db).1.expirationKeys key = none) ∧
    alookup (set now key .vother ttl db).1.valueIndex "" =
      some ⟨(match alookup db.valueIndex "" with
             | some e => e.keys ++ [key]
             | none => [key])⟩ := by
  have hs : ¬ (alookup db.store key).isSome = true := by simp [habs]
  by_cases ht : ttl > 0
  · have ht2 : ¬ ttl ≤ 0 := by omega
    refine ⟨?_, ?_, ?_, ?_, ?_, ?_⟩ <;>
      simp [set, hs, ht, ht2, commandValueOf, addToIndex, indexAdd, valueToString,
        alookup_ainsert, alookup_aerase] <;>
      cases hv : alookup db.valueIndex "" <;> simp [alookup_ainsert]
  · have ht2 : ttl ≤ 0 := by omega
    refine ⟨?_, ?_, ?_, ?_, ?_, ?_⟩ <;>
      simp [set, hs, ht, ht2, commandValueOf, addToIndex, indexAdd, valueToString,
        alookup_ainsert, alookup_aerase] <;>
      cases hv : alookup db.valueIndex "" <;> simp [alookup_ainsert]

/-- Claim C6 (witness): `c6_set_unsupported` on a fresh database. -/
theorem c6_set_unsupported_witness :
    (set 0 "k" .vother 1 emptyDB).2 = some Err.unsupportedValueType ∧
    alookup (set 0 "k" .vother 1 emptyDB).1.store "k" = some .vother := by
  have h := c6_set_unsupported 0 "k" 1 emptyDB (by decide)
  exact ⟨h.1, h.2.2.1⟩

/-- Claim C7 (counterexample). After `set("k","v",1)` at `t = 0`, the
key's deadline (1) has passed at `t = 5` but the key has not been swept.
The claim says a set on such an expired-but-unswept key does not fail
with `KeyAlreadyExists`; the code nevertheless returns
`KeyAlreadyExists` (the existence check reads the raw store and ignores
expiry), leaving the state unchanged. -/
theorem c7_set_expired_unswept_counterexample :
    alookup dbSetK.expirationKeys "k" = some 1 ∧
    (set 5 "k" (.vstr "w") 0 dbSetK).2 = some .keyAlreadyExists ∧
    (set 5 "k" (.vstr "w") 0 dbSetK).1 = dbSetK := by decide

/-- Claim C7 (amended). `set(key, value, ttl)` fails with
`KeyAlreadyExists` exactly when the key is present in the store —
whether live or expired-but-not-yet-swept (expiry is not consulted);
a present key leaves the state unchanged, and on success (no error) the
key was absent and has been inserted. -/
theorem c7_set_key_exists (now : Int) (key : String) (v : Value) (ttl : Int)
    (db : DB) :
    ((set now key v ttl db).2 = some Err.keyAlreadyExists ↔
      (alookup db.store key).isSome = true) ∧
    ((alookup db.store key).isSome = true → (set now key v ttl db).1 = db) ∧
    ((set now key v ttl db).2 = none →
      alookup db.store key = none ∧
      alookup (set now key v ttl db).1.store key = some v) := by
  by_cases hs : (alookup db.store key).isSome = true
  · simp [set, hs]
  · have habs : alookup db.store key = none := by
      cases h : alookup db.store key
      · rfl
      · exact absurd (by simp [h]) hs
    refine ⟨?_, ?_, ?_⟩
    · simp only [set, hs, if_false]
      cases hv : commandValueOf v <;> simp [hv, habs]
    · simp [hs]
    · intro hok
      refine ⟨habs, ?_⟩
      simp only [set, hs, if_false] at hok ⊢
      cases hv : commandValueOf v with
      | none => simp [hv] at hok
      | some cv =>
        by_cases ht : ttl > 0 <;>
          simp [hv, ht, addToIndex_store, alookup_ainsert]

/-- Claim C7 (witness): `c7_set_key_exists` at the expired-but-unswept
state `dbSetK`. -/
theorem c7_set_key_exists_witness :
    ((set 5 "k" (.vstr "w") 0 dbSetK).2 = some Err.keyAlreadyExists ↔
      (alookup dbSetK.store "k").isSome = true) := by
  exact (c7_set_key_exists 5 "k" (.vstr "w") 0 dbSetK).1

/-- Claim C8 (counterexample). `set("k","v",1)` at `t = 0` leaves one
SET record in the buffer; `get_ttl("k")` at `t = 2` evicts the expired
key from the store and the expiration map — a mutation — yet appends no
command record: the buffer length is unchanged, contradicting the
exactly-one-record-per-mutation claim for `get_ttl`. -/
theorem c8_getTtl_eviction_appends_nothing :
    alookup dbSetK.expirationKeys "k" = some 1 ∧
    (getTtl 2 "k" dbSetK).2 = (-1, false) ∧
    alookup (getTtl 2 "k" dbSetK).1.store "k" = none ∧
    alookup (getTtl 2 "k" dbSetK).1.expirationKeys "k" = none ∧
    (getTtl 2 "k" dbSetK).1.aofBuffer.length = dbSetK.aofBuffer.length := by decide

/-- Claim C8 (amended). Each mutating operation appends exactly one
command record to the AOF buffer — set (absent key, supported value),
delete (present key), set_expiry (present key, `seconds ≥ 0`), and the
on-read eviction in get — while the sweeper appends exactly one record
per evicted key; the eviction in `get_ttl`, however, appends no record
at all (`get_ttl` never touches the buffer). -/
theorem c8_aof_records_per_mutation (db : DB) (now : Int) (key : String)
    (v : Value) (ttl seconds : Int) :
    ((alookup db.store key = none ∧ (commandValueOf v).isSome = true) →
      (set now key v ttl db).1.aofBuffer.length = db.aofBuffer.length + 1) ∧
    ((alookup db.store key).isSome = true →
      (deleteKey now key db).1.aofBuffer.length = db.aofBuffer.length + 1) ∧
    (((alookup db.store key).isSome = true ∧ 0 ≤ seconds) →
      (setExpiry now key seconds db).1.aofBuffer.length = db.aofBuffer.length + 1) ∧
    ((∃ d, alookup db.expirationKeys key = some d ∧ now > d) →
      (get now key db).1.aofBuffer.length = db.aofBuffer.length + 1) ∧
    (getTtl now key db).1.aofBuffer.length = db.aofBuffer.length ∧
    (sweep now db).aofBuffer.length =
      db.aofBuffer.length + (db.expirationKeys.filter (fun p => now > p.2)).length := by
  refine ⟨?_, ?_, ?_, ?_, ?_, ?_⟩
  · rintro ⟨habs, hcv⟩
    have hs : ¬ (alookup db.store key).isSome = true := by simp [habs]
    cases hv : commandValueOf v with
    | none => simp [hv] at hcv
    | some cv =>
      by_cases ht : ttl > 0 <;> simp [set, hs, hv, ht, addToIndex_aofBuffer]
  · intro hsome
    cases h : alookup db.store key with
    | none => simp [h] at hsome
    | some v0 =>
      simp [deleteKey, h, removeFromIndex_aofBuffer, unsafeRemoveKey]
  · rintro ⟨hsome, hsec⟩
    cases h : alookup db.store key with
    | none => simp [h] at hsome
    | some v0 =>
      have hneg : ¬ seconds < 0 := by omega
      by_cases hpos : seconds > 0
      · simp [setExpiry, h, hpos, hneg]
      · have hz : seconds = 0 := by omega
        simp [setExpiry, h, hpos, hneg, hz]
  · rintro ⟨d, hd, hnow⟩
    simp [get, hd, hnow, unsafeRemoveKey]
  · cases h : alookup db.store key with
    | none => simp [getTtl, h]
    | some v0 =>
      cases he : alookup db.expirationKeys key with
      | none => simp [getTtl, h, he]
      | some d =>
        by_cases hr : d - now ≤ 0 <;> simp [getTtl, h, he, hr]
  · simp [sweep, sweepFold_aofBuffer]

/-- Claim C8 (witness): the delete and get_ttl branches of
`c8_aof_records_per_mutation` at the concrete state `dbSetK`. -/
theorem c8_aof_records_per_mutation_witness :
    (deleteKey 2 "k" dbSetK).1.aofBuffer.length = dbSetK.aofBuffer.length + 1 ∧
    (getTtl 2 "k" dbSetK).1.aofBuffer.length = dbSetK.aofBuffer.length := by
  have h := c8_aof_records_per_mutation dbSetK 2 "k" (.vstr "v") 0 0
  exact ⟨h.2.1 (by decide), h.2.2.2.2.1⟩

/-- Claim C9. The claim says a snapshot JSON number with zero fractional
part is restored as an `int`. In the code (`LoadFromSnapshot`), the
integral branch returns `float64(int(value))` — still a `float64` — so
the entry `{"k": {"value": 5}}` is restored as the float 5, not the
int 5: the ternary's integral branch is a no-op and the entry's type is
float64. -/
theorem c9_integral_number_restored_as_float :
    loadFromSnapshot [("k", [("value", JVal.jnum 5)])] = [("k", Value.vfloat 5)] ∧
    restoreSnapshotValue (.jnum 5) = some (.vfloat 5) ∧
    restoreSnapshotValue (.jnum 0) = some (.vfloat 0) ∧
    restoreSnapshotValue (.jnum (-3)) = some (.vfloat (-3)) := by decide

/-- Claim C10. Index entries are slices, not sets: `addToIndex` on a key
already listed in an entry appends a second occurrence (the entry's
slice grows to `keys ++ [key]`, holding the key at least twice), a
single `removeKeyFromSlice` removes exactly one occurrence, and the
concrete sequence set → expire → get (which evicts the store entry but
leaves the index entries) → set leaves `"k"` listed twice in the value,
prefix and suffix index entries, with searches returning it twice. -/
theorem c10_index_duplicate_keys (idx : Index) (ikey key : String) (e : IndexEntry)
    (hentry : alookup idx ikey = some e) (hmem : key ∈ e.keys)
    (l : List String) (hl : key ∈ l) :
    alookup (indexAdd idx ikey key) ikey = some ⟨e.keys ++ [key]⟩ ∧
    2 ≤ (e.keys ++ [key]).count key ∧
    (removeKeyFromSlice l key).count key + 1 = l.count key ∧
    searchValueIdx dbResetK "v" = ["k", "k"] ∧
    searchPrefixIdx dbResetK "k" = ["k", "k"] ∧
    searchSuffixIdx dbResetK "k" = ["k", "k"] := by
  refine ⟨indexAdd_appends idx ikey key e hentry, ?_,
    removeKeyFromSlice_count l key hl, by decide, by decide, by decide⟩
  have h1 : 1 ≤ e.keys.count key := List.one_le_count_iff.mpr hmem
  have h2 : (e.keys ++ [key]).count key = e.keys.count key + 1 := by
    simp [List.count_append]
  omega

/-- Claim C10 (witness): `c10_index_duplicate_keys` on the one-entry
index `[("v", ⟨["k"]⟩)]` and the list `["k"]`. -/
theorem c10_index_duplicate_keys_witness :
    alookup (indexAdd [("v", ⟨["k"]⟩)] "v" "k") "v" = some ⟨["k", "k"]⟩ ∧
    searchPrefixIdx dbResetK "k" = ["k", "k"] := by
  have h := c10_index_duplicate_keys [("v", ⟨["k"]⟩)] "v" "k" ⟨["k"]⟩
    (by decide) (by decide) ["k"] (by decide)
  exact ⟨h.1, h.2.2.2.2.1⟩

end Redigo
